import Mathlib

/-!
Verification of the agent control loop of `airsim-drone-agent`
(`src/airsim_drone_agent/agent/tools.py` and `src/airsim_drone_agent/agent/agent.py`).

The Python data that flows through the agent is JSON-shaped (values produced by
`json.loads`, argument dictionaries, tool-call objects), so we first embed a JSON
value type and a model of Python's `json.loads`, then the two regular-expression
searches used by `DroneAgent._extract_plan_and_tool_calls`, then the tool
registry, the step executor and the conversation loop.
-/

/-- JSON values as produced by Python's `json.loads`.  Numbers keep their
source lexeme (no claim below compares numbers arithmetically).  Objects keep
their fields in source order; lookups use Python-dict semantics (membership is
any occurrence, the value of a duplicated key is the last occurrence). -/
inductive JValue where
  | null
  | bool (b : Bool)
  | num (lexeme : String)
  | str (s : String)
  | arr (elems : List JValue)
  | obj (fields : List (String × JValue))

/-- A Python argument dictionary (`Dict[str, Any]` with JSON values). -/
abbrev Args := List (String × JValue)

/-- Python-dict lookup on an association list: the value of the last binding of
the key wins (later assignments overwrite earlier ones when the dict is built). -/
def dictLookup (fields : List (String × JValue)) (k : String) : Option JValue :=
  fields.foldl (fun acc kv => if kv.1 = k then some kv.2 else acc) none

/-- Membership `k in d` for a Python dict. -/
def dictHasKey (fields : List (String × JValue)) (k : String) : Bool :=
  (dictLookup fields k).isSome

/-- Lookup `v.get(k)` and membership `k in v` on a JSON object value. -/
def JValue.lookup (v : JValue) (k : String) : Option JValue :=
  match v with
  | .obj fields => dictLookup fields k
  | _ => none

def JValue.hasKey (v : JValue) (k : String) : Bool :=
  (v.lookup k).isSome

def JValue.isNull (v : JValue) : Bool :=
  match v with
  | .null => true
  | _ => false

def JValue.isObj (v : JValue) : Bool :=
  match v with
  | .obj _ => true
  | _ => false

/-! ## A model of Python's `json.loads`

`agent.py` parses model text with `json.loads` and the agent only ever inspects
the resulting values through dict/list operations, so we embed a JSON reader
faithful to CPython's `json` module: JSON whitespace is ` \t\n\r`; the special
constants `NaN`, `Infinity` and `-Infinity` are accepted; strings are strict
(unescaped control characters below U+0020 are rejected); numbers follow the
scanner's regular expression and keep their lexeme; the whole input must be
consumed apart from trailing whitespace.  The reader is fuelled; `json.loads`
consumes at least one character per recursive step, so `length + 1` fuel is
always enough, and no theorem below depends on fuel arithmetic. -/

def isJsonWs (c : Char) : Bool :=
  c = ' ' || c = '\t' || c = '\n' || c = '\r'

def skipJsonWs (cs : List Char) : List Char :=
  cs.dropWhile isJsonWs

def hexDigitVal (c : Char) : Option Nat :=
  if '0' ≤ c ∧ c ≤ '9' then some (c.toNat - '0'.toNat)
  else if 'a' ≤ c ∧ c ≤ 'f' then some (c.toNat - 'a'.toNat + 10)
  else if 'A' ≤ c ∧ c ≤ 'F' then some (c.toNat - 'A'.toNat + 10)
  else none

def hex4Val (h1 h2 h3 h4 : Char) : Option Nat :=
  match hexDigitVal h1, hexDigitVal h2, hexDigitVal h3, hexDigitVal h4 with
  | some a, some b, some c, some d => some (((a * 16 + b) * 16 + c) * 16 + d)
  | _, _, _, _ => none

/-- Build a character from a code point.  CPython strings may hold lone
surrogates, which Lean's `Char` cannot; those (and only those) are replaced by
U+FFFD.  No claim below involves surrogate escapes. -/
def charOfCode (n : Nat) : Char :=
  if n.isValidChar then Char.ofNat n else '�'

/-- The body of a JSON string, after the opening quote; strict mode as in
`json.loads` (raw control characters below U+0020 are an error).  A high
surrogate escape followed by a low surrogate escape combines into one code
point, as in CPython. -/
def parseStringBody : Nat → List Char → List Char → Option (String × List Char)
  | 0, _, _ => none
  | _ + 1, '"' :: rest, acc => some (String.mk acc.reverse, rest)
  | fuel + 1, '\\' :: '"' :: rest, acc => parseStringBody fuel rest ('"' :: acc)
  | fuel + 1, '\\' :: '\\' :: rest, acc => parseStringBody fuel rest ('\\' :: acc)
  | fuel + 1, '\\' :: '/' :: rest, acc => parseStringBody fuel rest ('/' :: acc)
  | fuel + 1, '\\' :: 'b' :: rest, acc => parseStringBody fuel rest ('\x08' :: acc)
  | fuel + 1, '\\' :: 'f' :: rest, acc => parseStringBody fuel rest ('\x0c' :: acc)
  | fuel + 1, '\\' :: 'n' :: rest, acc => parseStringBody fuel rest ('\n' :: acc)
  | fuel + 1, '\\' :: 'r' :: rest, acc => parseStringBody fuel rest ('\r' :: acc)
  | fuel + 1, '\\' :: 't' :: rest, acc => parseStringBody fuel rest ('\t' :: acc)
  | fuel + 1, '\\' :: 'u' :: h1 :: h2 :: h3 :: h4 :: '\\' :: 'u' :: k1 :: k2 :: k3 :: k4 :: rest, acc =>
    match hex4Val h1 h2 h3 h4 with
    | none => none
    | some n =>
      if 0xD800 <= n ∧ n < 0xDC00 then
        -- a high surrogate escape directly followed by another `\uXXXX` escape:
        -- the scanner decodes the second escape too (erroring on bad hex), and
        -- combines the pair when the second is a low surrogate
        match hex4Val k1 k2 k3 k4 with
        | none => none
        | some m =>
          if 0xDC00 <= m ∧ m < 0xE000 then
            parseStringBody fuel rest
              (charOfCode (0x10000 + (n - 0xD800) * 0x400 + (m - 0xDC00)) :: acc)
          else parseStringBody fuel ('\\' :: 'u' :: k1 :: k2 :: k3 :: k4 :: rest)
              (charOfCode n :: acc)
      else parseStringBody fuel ('\\' :: 'u' :: k1 :: k2 :: k3 :: k4 :: rest)
          (charOfCode n :: acc)
  | fuel + 1, '\\' :: 'u' :: h1 :: h2 :: h3 :: h4 :: rest, acc =>
    match hex4Val h1 h2 h3 h4 with
    | none => none
    | some n => parseStringBody fuel rest (charOfCode n :: acc)
  | _ + 1, '\\' :: _, _ => none
  | fuel + 1, c :: rest, acc =>
    if c.toNat < 0x20 then none else parseStringBody fuel rest (c :: acc)
  | _ + 1, [], _ => none

def spanDigits (cs : List Char) : List Char × List Char :=
  (cs.takeWhile Char.isDigit, cs.dropWhile Char.isDigit)

/-- A JSON number token, following the scanner regular expression
`(-?(?:0|[1-9]\d*))(\.\d+)?([eE][-+]?\d+)?`; the matched lexeme is kept. -/
def parseNumberTok (cs : List Char) : Option (JValue × List Char) :=
  let (sign, afterSign) :=
    match cs with
    | '-' :: rest => (['-'], rest)
    | _ => (([] : List Char), cs)
  match afterSign with
  | '0' :: rest =>
    parseNumberFrac (sign ++ ['0']) rest
  | c :: _ =>
    if c.isDigit then
      let (ds, rest) := spanDigits afterSign
      parseNumberFrac (sign ++ ds) rest
    else none
  | [] => none
where
  parseNumberFrac (intLex : List Char) (cs : List Char) : Option (JValue × List Char) :=
    let (fracLex, afterFrac) :=
      match cs with
      | '.' :: rest =>
        let (ds, rest2) := spanDigits rest
        if ds.isEmpty then (([] : List Char), cs) else ('.' :: ds, rest2)
      | _ => (([] : List Char), cs)
    let (expLex, afterExp) :=
      match afterFrac with
      | e :: rest =>
        if e = 'e' ∨ e = 'E' then
          match rest with
          | s :: rest2 =>
            if s = '+' ∨ s = '-' then
              let (ds, rest3) := spanDigits rest2
              if ds.isEmpty then (([] : List Char), afterFrac) else (e :: s :: ds, rest3)
            else
              let (ds, rest3) := spanDigits rest
              if ds.isEmpty then (([] : List Char), afterFrac) else (e :: ds, rest3)
          | [] => (([] : List Char), afterFrac)
        else (([] : List Char), afterFrac)
      | [] => (([] : List Char), afterFrac)
    some (.num (String.mk (intLex ++ fracLex ++ expLex)), afterExp)

mutual

/-- One JSON value at the current position (whitespace already skipped). -/
def parseValue : Nat → List Char → Option (JValue × List Char)
  | 0, _ => none
  | fuel + 1, cs =>
    match cs with
    | 'n' :: 'u' :: 'l' :: 'l' :: rest => some (.null, rest)
    | 't' :: 'r' :: 'u' :: 'e' :: rest => some (.bool true, rest)
    | 'f' :: 'a' :: 'l' :: 's' :: 'e' :: rest => some (.bool false, rest)
    | 'N' :: 'a' :: 'N' :: rest => some (.num "NaN", rest)
    | 'I' :: 'n' :: 'f' :: 'i' :: 'n' :: 'i' :: 't' :: 'y' :: rest =>
      some (.num "Infinity", rest)
    | '-' :: 'I' :: 'n' :: 'f' :: 'i' :: 'n' :: 'i' :: 't' :: 'y' :: rest =>
      some (.num "-Infinity", rest)
    | '"' :: rest =>
      match parseStringBody (rest.length + 1) rest [] with
      | some (s, rest2) => some (.str s, rest2)
      | none => none
    | '[' :: rest => parseArrayElems fuel (skipJsonWs rest) true
    | '\x7b' :: rest => parseObjectFields fuel (skipJsonWs rest) true
    | _ => parseNumberTok cs

/-- Elements of a JSON array, positioned after `[` (whitespace skipped); the
flag allows an immediate `]` only before the first element. -/
def parseArrayElems : Nat → List Char → Bool → Option (JValue × List Char)
  | 0, _, _ => none
  | fuel + 1, cs, allowEnd =>
    match cs with
    | ']' :: rest => if allowEnd then some (.arr [], rest) else none
    | _ =>
      match parseValue fuel cs with
      | none => none
      | some (v, rest) =>
        match skipJsonWs rest with
        | ',' :: rest2 =>
          match parseArrayElems fuel (skipJsonWs rest2) false with
          | some (.arr vs, rest3) => some (.arr (v :: vs), rest3)
          | _ => none
        | ']' :: rest2 => some (.arr [v], rest2)
        | _ => none

/-- Members of a JSON object, positioned after `{` (whitespace skipped); keys
must be strings, as in `json.loads`. -/
def parseObjectFields : Nat → List Char → Bool → Option (JValue × List Char)
  | 0, _, _ => none
  | fuel + 1, cs, allowEnd =>
    match cs with
    | '\x7d' :: rest => if allowEnd then some (.obj [], rest) else none
    | '"' :: rest =>
      match parseStringBody (rest.length + 1) rest [] with
      | none => none
      | some (k, rest2) =>
        match skipJsonWs rest2 with
        | ':' :: rest3 =>
          match parseValue fuel (skipJsonWs rest3) with
          | none => none
          | some (v, rest4) =>
            match skipJsonWs rest4 with
            | ',' :: rest5 =>
              match parseObjectFields fuel (skipJsonWs rest5) false with
              | some (.obj fs, rest6) => some (.obj ((k, v) :: fs), rest6)
              | _ => none
            | '\x7d' :: rest5 => some (.obj [(k, v)], rest5)
            | _ => none
        | _ => none
    | _ => none

end

/-- Models `json.loads`: skip leading whitespace, read one value, then require that
only whitespace remains (otherwise the `Extra data` error). -/
def parseJson (text : String) : Option JValue :=
  let cs := skipJsonWs text.toList
  match parseValue (cs.length + 1) cs with
  | some (v, rest) => if (skipJsonWs rest).isEmpty then some v else none
  | none => none

/-! ## A model of the two `re.search` calls in `_extract_plan_and_tool_calls`

`agent.py` uses two patterns, built only from literals and character-class
stars (one lazy, the rest greedy):

* `\[\s*\{[^[]*"tool_name"[\s\S]*?\}\s*\]`  (the list pattern)
* `\{[^{}]*"tool_name"[^{}]*\}`             (the dict pattern)

A sequence of such pieces is matched by backtracking exactly as Python's
engine does: a greedy star first consumes the longest run of matching
characters and gives characters back on failure; a lazy star starts from the
empty run.  `re.search` returns the match at the leftmost starting position.
The matcher is fuelled (each backtracking step strictly consumes fuel); the
initial fuel is large enough for these fixed patterns, and no theorem below
depends on fuel arithmetic. -/

/-- ASCII whitespace as matched by Python's `\s` and stripped by `str.strip()`
(the texts in the claims are ASCII/CJK without exotic unicode spaces). -/
def isPySpace (c : Char) : Bool :=
  c = ' ' || c = '\t' || c = '\n' || c = '\r' || c = '\x0b' || c = '\x0c'

/-- A piece of one of the two patterns. -/
inductive Re where
  | lit (s : String)
  | starGreedy (p : Char → Bool)
  | starLazy (p : Char → Bool)

/-- Match a literal prefix, returning the remainder. -/
def dropLit : List Char → List Char → Option (List Char)
  | [], cs => some cs
  | p :: ps, c :: cs => if p = c then dropLit ps cs else none
  | _ :: _, [] => none

/-- The remainders a star over `p` can leave, longest-consumed first (the
greedy backtracking order; the lazy order is the reverse). -/
def starRests (p : Char → Bool) : List Char → List (List Char)
  | [] => [[]]
  | c :: cs => if p c then starRests p cs ++ [c :: cs] else [c :: cs]

mutual

/-- Match a piece sequence at the start of `cs`, returning the remainder of
the first match found in backtracking order. -/
def matchSeqF : Nat → List Re → List Char → Option (List Char)
  | 0, _, _ => none
  | _ + 1, [], cs => some cs
  | fuel + 1, .lit s :: rs, cs =>
    match dropLit s.toList cs with
    | some rest => matchSeqF fuel rs rest
    | none => none
  | fuel + 1, .starGreedy p :: rs, cs => tryRests fuel rs (starRests p cs)
  | fuel + 1, .starLazy p :: rs, cs => tryRests fuel rs (starRests p cs).reverse

/-- Try the remaining pieces against each candidate remainder in order. -/
def tryRests : Nat → List Re → List (List Char) → Option (List Char)
  | 0, _, _ => none
  | _ + 1, _, [] => none
  | fuel + 1, rs, c :: cands =>
    match matchSeqF fuel rs c with
    | some rest => some rest
    | none => tryRests fuel rs cands

end

def matchSeq (pat : List Re) (cs : List Char) : Option (List Char) :=
  matchSeqF ((pat.length + 1) * (cs.length + 2)) pat cs

/-- Models `re.search`: the leftmost position with a match wins; the result is the
matched span as `(start, stop)` character indices. -/
def reSearchFrom (pat : List Re) : List Char → Nat → Option (Nat × Nat)
  | cs, idx =>
    match matchSeq pat cs with
    | some rem => some (idx, idx + (cs.length - rem.length))
    | none =>
      match cs with
      | [] => none
      | _ :: rest => reSearchFrom pat rest (idx + 1)

def reSearch (pat : List Re) (cs : List Char) : Option (Nat × Nat) :=
  reSearchFrom pat cs 0

/-- The list pattern `r'\[\s*\{[^[]*"tool_name"[\s\S]*?\}\s*\]'`. -/
def listPat : List Re :=
  [.lit "[", .starGreedy isPySpace, .lit "\x7b", .starGreedy (fun c => c ≠ '['),
   .lit "\"tool_name\"", .starLazy (fun _ => true), .lit "\x7d",
   .starGreedy isPySpace, .lit "]"]

/-- The dict pattern `r'\{[^{}]*"tool_name"[^{}]*\}'`. -/
def dictPat : List Re :=
  [.lit "\x7b", .starGreedy (fun c => c ≠ '\x7b' && c ≠ '\x7d'),
   .lit "\"tool_name\"", .starGreedy (fun c => c ≠ '\x7b' && c ≠ '\x7d'),
   .lit "\x7d"]

/-- Python slicing `text[start:stop]`. -/
def sliceChars (cs : List Char) (start stop : Nat) : List Char :=
  (cs.drop start).take (stop - start)

/-- Python's `str.strip()`. -/
def pyStrip (s : String) : String :=
  String.mk (((s.toList.dropWhile isPySpace).reverse.dropWhile isPySpace).reverse)

/-! ## `DroneAgent._extract_plan_and_tool_calls` (agent.py, lines 206-253) -/

/-- Checks `isinstance(parsed, dict) and "tool_name" in parsed`. -/
def isToolCallObj (v : JValue) : Bool :=
  v.isObj && v.hasKey "tool_name"

/-- Checks `isinstance(parsed, list) and all(isinstance(p, dict) and
"tool_name" in p for p in parsed)`. -/
def isToolCallList (v : JValue) : Bool :=
  match v with
  | .arr xs => xs.all (fun p => p.isObj && p.hasKey "tool_name")
  | _ => false

def arrElems (v : JValue) : List JValue :=
  match v with
  | .arr xs => xs
  | _ => []

/-- The `tool_calls` produced from the embedded-JSON matches: the list match
is tried first; a span that fails to parse, or parses to the wrong shape,
leaves `tool_calls` empty (the `except json.JSONDecodeError` branches). -/
def embeddedToolCalls (cs : List Char) (lm dm : Option (Nat × Nat)) : List JValue :=
  match lm with
  | some (s, e) =>
    match parseJson (String.mk (sliceChars cs s e)) with
    | some v => if isToolCallList v then arrElems v else []
    | none => []
  | none =>
    match dm with
    | some (s, e) =>
      match parseJson (String.mk (sliceChars cs s e)) with
      | some v => if isToolCallObj v then [v] else []
      | none => []
    | none => []

/-- The plan text: everything before the matched span (list match first),
stripped; with no match at all, the whole stripped text. -/
def planFromMatches (cs : List Char) (lm dm : Option (Nat × Nat)) : String :=
  match lm with
  | some (s, _) => pyStrip (String.mk (cs.take s))
  | none =>
    match dm with
    | some (s, _) => pyStrip (String.mk (cs.take s))
    | none => pyStrip (String.mk cs)

/-- Models `DroneAgent._extract_plan_and_tool_calls`: first try `json.loads` on the
whole text (returning immediately on a tool-call object or a list of tool-call
objects); otherwise fall back to the two embedded-JSON searches; finally an
empty plan string is normalised to `None`. -/
def extractPlanAndToolCalls (text : String) : Option String × List JValue :=
  let direct : Option (Option String × List JValue) :=
    match parseJson text with
    | some v =>
      if isToolCallObj v then some (none, [v])
      else if isToolCallList v then some (none, arrElems v)
      else none
    | none => none
  match direct with
  | some r => r
  | none =>
    let cs := text.toList
    let lm := reSearch listPat cs
    let dm := reSearch dictPat cs
    let plan := planFromMatches cs lm dm
    (if plan = "" then none else some plan, embeddedToolCalls cs lm dm)

/-! ## `ToolRegistry` (tools.py)

A `Tool` keeps the registered name, description, JSON-schema parameters and
the bound function.  The Python binding is invoked as `tool.func(**arguments)`;
each binding model below implements its lambda's keyword-argument matching,
and an exception raised by the binding is modelled as `Except.error` carrying
`str(e)`. -/

structure Tool where
  name : String
  description : String
  parameters : JValue
  func : Args → Except String JValue

/-- The registry's `tools` dict, in registration insertion order (names are
unique, so first-match lookup agrees with dict lookup). -/
abbrev Registry := List Tool

/-- Models `self.tools.get(name)`.  The step executor passes the parsed `tool_name`
value, which need not be a string; a non-string value is never a key of the
string-keyed dict. -/
def get_tool (reg : Registry) (name : JValue) : Option Tool :=
  reg.find? (fun t =>
    match name with
    | .str s => s = t.name
    | _ => false)

/-- Python `str()` of a JSON-shaped value, as interpolated into the f-string
error messages.  Only string values reach those messages under the claims
below; the remaining renderings approximate CPython's and are not relied on
by any theorem. -/
def pyStrVal : JValue → String
  | .null => "None"
  | .bool true => "True"
  | .bool false => "False"
  | .num lexeme => lexeme
  | .str s => s
  | .arr _ => "[...]"
  | .obj _ => "\x7b...\x7d"

/-- Reads `tool.parameters.get("required", [])`.  Every registered schema stores an
array (of strings) under `"required"` or omits the key, so the fallback for a
non-array value is never exercised. -/
def requiredList (params : JValue) : List JValue :=
  match params.lookup "required" with
  | some (.arr xs) => xs
  | _ => []

/-- Tests `param not in arguments or arguments[param] is None`.  Argument dicts are
string-keyed, so a non-string schema entry is never present (no registered
schema has one). -/
def absentOrNull (args : Args) (param : JValue) : Bool :=
  match param with
  | .str s =>
    match dictLookup args s with
    | some v => v.isNull
    | none => true
  | _ => true

/-- Models `ToolRegistry.validate_arguments` (tools.py, lines 230-252). -/
def validate_arguments (reg : Registry) (name : JValue) (args : Args) :
    Bool × Option String :=
  match get_tool reg name with
  | none => (false, some ("未知工具: " ++ pyStrVal name))
  | some tool =>
    let required := requiredList tool.parameters
    let missing := required.filter (absentOrNull args)
    if missing.isEmpty then (true, none)
    else (false, some ("缺少必填参数: " ++ String.intercalate ", " (missing.map pyStrVal)))

/-- The exceptions `ToolRegistry.call_tool` can raise: `ValueError` for an
unknown tool or a validation failure, `RuntimeError` for a wrapped binding
failure. -/
inductive ToolError where
  | valueError (msg : String)
  | runtimeError (msg : String)

/-- Python `str(e)` of either exception is its message. -/
def ToolError.message : ToolError → String
  | .valueError m => m
  | .runtimeError m => m

/-- Models `ToolRegistry.call_tool` (tools.py, lines 254-268): unknown name raises
`ValueError`; a failed re-validation raises `ValueError` with the validation
message (which is always present when validation fails); an exception from the
binding is re-raised as `RuntimeError` with the original message embedded and
the original type discarded. -/
def call_tool (reg : Registry) (name : JValue) (args : Args) :
    Except ToolError JValue :=
  match get_tool reg name with
  | none => .error (.valueError ("未知工具: " ++ pyStrVal name))
  | some tool =>
    match validate_arguments reg name args with
    | (false, msg) => .error (.valueError (msg.getD ""))
    | (true, _) =>
      match tool.func args with
      | .ok v => .ok v
      | .error m => .error (.runtimeError ("工具调用失败: " ++ m))

/-! ## The registered tools (`ToolRegistry._register_all_tools`, tools.py)

The bindings call through to the `AirSimClient` collaborator (simulator I/O),
which the core treats as external; it is therefore a parameter, a record of
functions that either return a JSON-shaped result or fail with an exception
message. -/

structure AirSimClientModel where
  arm : JValue → Except String JValue
  takeoff : JValue → Except String JValue
  land : JValue → Except String JValue
  hover : Unit → Except String JValue
  move_to_position : JValue → JValue → JValue → JValue → JValue → Except String JValue
  move_to_z : JValue → JValue → JValue → Except String JValue
  move_on_path : JValue → JValue → JValue → Except String JValue
  /-- Models `sensors.get_rgb_frame` composed with `bgr_to_jpeg_data_url`: the
  frame's width, height and the encoded data URL. -/
  get_rgb_frame : String → Except String (JValue × JValue × String)

/-- The binding `lambda armed: self.client.arm(armed=armed)` called as
`func(**args)`:
the only accepted keyword is `armed` and it has no default.  The exact CPython
`TypeError` messages are not relied on by any theorem. -/
def armTool (client : AirSimClientModel) (args : Args) : Except String JValue :=
  if args.all (fun kv => kv.1 = "armed") then
    match dictLookup args "armed" with
    | some v => client.arm v
    | none => .error "TypeError: missing a required argument: armed"
  else .error "TypeError: got an unexpected keyword argument"

/-- The binding `lambda timeout_sec=10.0: self.client.takeoff(...)`. -/
def takeoffTool (client : AirSimClientModel) (args : Args) : Except String JValue :=
  if args.all (fun kv => kv.1 = "timeout_sec") then
    client.takeoff ((dictLookup args "timeout_sec").getD (.num "10.0"))
  else .error "TypeError: got an unexpected keyword argument"

/-- The binding `lambda timeout_sec=20.0: self.client.land(...)`. -/
def landTool (client : AirSimClientModel) (args : Args) : Except String JValue :=
  if args.all (fun kv => kv.1 = "timeout_sec") then
    client.land ((dictLookup args "timeout_sec").getD (.num "20.0"))
  else .error "TypeError: got an unexpected keyword argument"

/-- The binding `lambda: self.client.hover()`. -/
def hoverTool (client : AirSimClientModel) (args : Args) : Except String JValue :=
  if args.isEmpty then client.hover ()
  else .error "TypeError: got an unexpected keyword argument"

/-- The binding `lambda x, y, z, velocity=5.0, timeout_sec=60.0:
self.client.move_to_position(...)`. -/
def moveToPositionTool (client : AirSimClientModel) (args : Args) : Except String JValue :=
  if args.all (fun kv =>
      kv.1 = "x" || kv.1 = "y" || kv.1 = "z" || kv.1 = "velocity" || kv.1 = "timeout_sec") then
    match dictLookup args "x", dictLookup args "y", dictLookup args "z" with
    | some x, some y, some z =>
      client.move_to_position x y z
        ((dictLookup args "velocity").getD (.num "5.0"))
        ((dictLookup args "timeout_sec").getD (.num "60.0"))
    | _, _, _ => .error "TypeError: missing a required argument"
  else .error "TypeError: got an unexpected keyword argument"

/-- The binding `lambda z, velocity=2.0, timeout_sec=30.0:
self.client.move_to_z(...)`. -/
def moveToZTool (client : AirSimClientModel) (args : Args) : Except String JValue :=
  if args.all (fun kv => kv.1 = "z" || kv.1 = "velocity" || kv.1 = "timeout_sec") then
    match dictLookup args "z" with
    | some z =>
      client.move_to_z z
        ((dictLookup args "velocity").getD (.num "2.0"))
        ((dictLookup args "timeout_sec").getD (.num "30.0"))
    | none => .error "TypeError: missing a required argument: z"
  else .error "TypeError: got an unexpected keyword argument"

/-- Python `tuple(p)`: tuples and lists both embed as `.arr`; a string yields
its characters; anything else is not iterable and raises. -/
def pyTuple : JValue → Except String JValue
  | .arr xs => .ok (.arr xs)
  | .str s => .ok (.arr (s.toList.map (fun c => .str (String.mk [c]))))
  | .obj fields => .ok (.arr (fields.map (fun kv => .str kv.1)))
  | _ => .error "TypeError: object is not iterable"

/-- Iterating `for p in path` over a JSON-shaped value. -/
def pyIter : JValue → Except String (List JValue)
  | .arr xs => .ok xs
  | .str s => .ok (s.toList.map (fun c => .str (String.mk [c])))
  | .obj fields => .ok (fields.map (fun kv => .str kv.1))
  | _ => .error "TypeError: object is not iterable"

/-- The binding `lambda path, velocity=5.0, timeout_sec=120.0:
self.client.move_on_path(path=[tuple(p) for p in path], ...)`. -/
def moveOnPathTool (client : AirSimClientModel) (args : Args) : Except String JValue :=
  if args.all (fun kv => kv.1 = "path" || kv.1 = "velocity" || kv.1 = "timeout_sec") then
    match dictLookup args "path" with
    | some path =>
      match pyIter path with
      | .error m => .error m
      | .ok ps =>
        match ps.mapM pyTuple with
        | .error m => .error m
        | .ok tuples =>
          client.move_on_path (.arr tuples)
            ((dictLookup args "velocity").getD (.num "5.0"))
            ((dictLookup args "timeout_sec").getD (.num "120.0"))
    | none => .error "TypeError: missing a required argument: path"
  else .error "TypeError: got an unexpected keyword argument"

/-- Models `ToolRegistry._get_camera_image` (tools.py, lines 160-195): an unknown
camera name raises `ValueError`; otherwise the frame is fetched and packed
into the result dict. -/
def getCameraImageImpl (client : AirSimClientModel) (cameraName : JValue) :
    Except String JValue :=
  let known := fun (s : String) =>
    s = "FRONT_CENTER" || s = "FRONT_LEFT" || s = "FRONT_RIGHT" ||
    s = "BACK_CENTER" || s = "BOTTOM_CENTER"
  match cameraName with
  | .str s =>
    if known s then
      match client.get_rgb_frame s with
      | .ok (w, h, url) =>
        .ok (.obj [("camera", .str s), ("width", w), ("height", h),
                   ("image_url", .str url),
                   ("message", .str ("已获取 " ++ s ++ " 摄像头的图像"))])
      | .error m => .error m
    else .error ("未知摄像头: " ++ s)
  | v => .error ("未知摄像头: " ++ pyStrVal v)

/-- The binding `lambda camera: self._get_camera_image(camera)`. -/
def getCameraImageTool (client : AirSimClientModel) (args : Args) :
    Except String JValue :=
  if args.all (fun kv => kv.1 = "camera") then
    match dictLookup args "camera" with
    | some v => getCameraImageImpl client v
    | none => .error "TypeError: missing a required argument: camera"
  else .error "TypeError: got an unexpected keyword argument"

def armParams : JValue :=
  .obj [("type", .str "object"),
        ("properties", .obj [("armed", .obj [("type", .str "boolean"),
          ("description", .str "True=解锁, False=上锁")])]),
        ("required", .arr [.str "armed"])]

def takeoffParams : JValue :=
  .obj [("type", .str "object"),
        ("properties", .obj [("timeout_sec", .obj [("type", .str "number"),
          ("description", .str "超时时间（秒）"), ("default", .num "10.0")])])]

def landParams : JValue :=
  .obj [("type", .str "object"),
        ("properties", .obj [("timeout_sec", .obj [("type", .str "number"),
          ("description", .str "超时时间（秒）"), ("default", .num "20.0")])])]

def hoverParams : JValue :=
  .obj [("type", .str "object"), ("properties", .obj [])]

def moveToPositionParams : JValue :=
  .obj [("type", .str "object"),
        ("properties", .obj [
          ("x", .obj [("type", .str "number"), ("description", .str "X坐标（米）")]),
          ("y", .obj [("type", .str "number"), ("description", .str "Y坐标（米）")]),
          ("z", .obj [("type", .str "number"),
            ("description", .str "Z坐标（米，负值表示向上）")]),
          ("velocity", .obj [("type", .str "number"),
            ("description", .str "移动速度（米/秒）"), ("default", .num "5.0")]),
          ("timeout_sec", .obj [("type", .str "number"),
            ("description", .str "超时时间（秒）"), ("default", .num "60.0")])]),
        ("required", .arr [.str "x", .str "y", .str "z"])]

def moveToZParams : JValue :=
  .obj [("type", .str "object"),
        ("properties", .obj [
          ("z", .obj [("type", .str "number"),
            ("description", .str "目标高度（米，负值表示向上）")]),
          ("velocity", .obj [("type", .str "number"),
            ("description", .str "移动速度（米/秒）"), ("default", .num "2.0")]),
          ("timeout_sec", .obj [("type", .str "number"),
            ("description", .str "超时时间（秒）"), ("default", .num "30.0")])]),
        ("required", .arr [.str "z"])]

def moveOnPathParams : JValue :=
  .obj [("type", .str "object"),
        ("properties", .obj [
          ("path", .obj [("type", .str "array"),
            ("description", .str "路径点列表，每个点为 [x, y, z]"),
            ("items", .obj [("type", .str "array"),
              ("items", .obj [("type", .str "number")]),
              ("minItems", .num "3"), ("maxItems", .num "3")])]),
          ("velocity", .obj [("type", .str "number"),
            ("description", .str "移动速度（米/秒）"), ("default", .num "5.0")]),
          ("timeout_sec", .obj [("type", .str "number"),
            ("description", .str "超时时间（秒）"), ("default", .num "120.0")])]),
        ("required", .arr [.str "path"])]

def getCameraImageParams : JValue :=
  .obj [("type", .str "object"),
        ("properties", .obj [("camera", .obj [("type", .str "string"),
          ("description", .str "摄像头名称，可选值: FRONT_CENTER(前方中央), FRONT_LEFT(前方左侧), FRONT_RIGHT(前方右侧), BACK_CENTER(后方中央), BOTTOM_CENTER(底部中央)"),
          ("enum", .arr [.str "FRONT_CENTER", .str "FRONT_LEFT",
            .str "FRONT_RIGHT", .str "BACK_CENTER", .str "BOTTOM_CENTER"])])]),
        ("required", .arr [.str "camera"])]

/-- The registry built by `ToolRegistry.__init__` via `_register_all_tools`,
in registration order. -/
def defaultRegistry (client : AirSimClientModel) : Registry :=
  [⟨"arm", "解锁或上锁无人机", armParams, armTool client⟩,
   ⟨"takeoff", "无人机起飞", takeoffParams, takeoffTool client⟩,
   ⟨"land", "无人机降落", landParams, landTool client⟩,
   ⟨"hover", "无人机悬停（保持当前位置和姿态）", hoverParams, hoverTool client⟩,
   ⟨"move_to_position", "移动到指定位置（NED坐标系，单位：米）", moveToPositionParams,
     moveToPositionTool client⟩,
   ⟨"move_to_z", "移动到指定高度（仅改变Z坐标）", moveToZParams, moveToZTool client⟩,
   ⟨"move_on_path", "沿路径移动", moveOnPathParams, moveOnPathTool client⟩,
   ⟨"get_camera_image", "获取指定摄像头的图像（用于查看特定视角）", getCameraImageParams,
     getCameraImageTool client⟩]

/-- A client whose every operation succeeds with `null` (used to instantiate
witnesses; which client is plugged in never affects validation). -/
def trivialClient : AirSimClientModel :=
  ⟨fun _ => .ok .null, fun _ => .ok .null, fun _ => .ok .null, fun _ => .ok .null,
   fun _ _ _ _ _ => .ok .null, fun _ _ _ => .ok .null, fun _ _ _ => .ok .null,
   fun s => .ok (.num "256", .num "144", "data:image/jpeg;base64," ++ s)⟩

/-! ## `DroneAgent.step` (agent.py, lines 255-411)

The step's outcome is decided entirely by the parsed reply and the registry:
the prompt assembly, the model round-trip, the logging and the optional UI
notifications (`ui_callback`) never feed back into it.  We embed the outcome
construction from the parse on. -/

/-- One entry of the `results` list built by the execution loop (the dict of
agent.py line 366; only successful calls are appended to `results`). -/
structure CallResult where
  tool_name : JValue
  arguments : Args
  result : JValue
  success : Bool
  plan : Option String

/-- A step's outcome dict.  A Python `None` value embeds as `JValue.null`
(or `none` in an `Option` field); a key absent from the dict embeds as
`none`. -/
structure StepOutcome where
  tool_name : JValue
  tool_calls : Option (List JValue) := none
  arguments : Option Args := none
  result : Option JValue := none
  results : Option (List CallResult) := none
  success : Option Bool := none
  error : Option String := none
  error_type : Option String := none
  reason : Option JValue := none
  llm_response : Option String := none
  plan : Option String := none

/-- Reads `tool_call.get("tool_name")`: `None` both when the key is absent and when
it maps to `null` (the executor only tests this value with `is None` or stores
it, so the two collapse faithfully). -/
def callName (c : JValue) : JValue :=
  (c.lookup "tool_name").getD .null

/-- Reads `tool_call.get("arguments", \x7b\x7d)` as an argument dict.  A present
non-object value embeds as the empty dict: in Python it would raise `TypeError`
(at `in` during validation for a tool with required parameters, or at `**`
during the call, where it is wrapped); no claim exercises that corner, and
every parsed call the executor receives is a JSON object. -/
def callArgs (c : JValue) : Args :=
  match c.lookup "arguments" with
  | some (.obj fields) => fields
  | _ => []

/-- agent.py lines 315-322: nothing parsed as a tool call. -/
def noCallOutcome (text : String) (plan : Option String) : StepOutcome :=
  { tool_name := .null, tool_calls := some [],
    reason := some (.str "无法解析工具调用"),
    llm_response := some text, plan := plan }

/-- agent.py lines 325-332: a single call with a `None` tool name is an
explicit decline; its `reason` field is passed through (defaulted only when
the key is absent). -/
def declineOutcome (text : String) (plan : Option String) (calls : List JValue)
    (c : JValue) : StepOutcome :=
  { tool_name := .null, tool_calls := some calls,
    reason := some ((c.lookup "reason").getD (.str "未调用工具")),
    llm_response := some text, plan := plan }

/-- agent.py lines 338-345: a `None` tool name inside the list. -/
def malformedOutcome (text : String) (plan : Option String)
    (calls : List JValue) : StepOutcome :=
  { tool_name := .null, tool_calls := some calls,
    reason := some (.str "工具列表中存在空的 tool_name"),
    llm_response := some text, plan := plan }

/-- agent.py lines 349-357: a call failed validation. -/
def validationFailOutcome (name : JValue) (args : Args) (msg : Option String)
    (plan : Option String) : StepOutcome :=
  { tool_name := name, arguments := some args, result := some .null,
    success := some false, error := msg,
    error_type := some "missing_required_parameters", plan := plan }

/-- agent.py lines 390-399: a call raised during execution. -/
def execFailOutcome (name : JValue) (calls : List JValue)
    (resultsAcc : List CallResult) (emsg : String) (plan : Option String) :
    StepOutcome :=
  { tool_name := name, tool_calls := some calls, results := some resultsAcc,
    result := some .null, success := some false, error := some emsg,
    error_type := some "execution_error", plan := plan }

/-- agent.py lines 402-403: a single-call batch collapses to its only result
dict. -/
def callResultToOutcome (r : CallResult) : StepOutcome :=
  { tool_name := r.tool_name, arguments := some r.arguments,
    result := some r.result, success := some r.success, plan := r.plan }

/-- agent.py lines 405-411: the `__batch__` outcome. -/
def batchOutcome (calls : List JValue) (resultsAcc : List CallResult)
    (plan : Option String) : StepOutcome :=
  { tool_name := .str "__batch__", tool_calls := some calls,
    results := some resultsAcc, success := some true, plan := plan }

/-- The validation loop over all calls (agent.py lines 334-357); `some` is an
early return. -/
def validateCalls (reg : Registry) (text : String) (plan : Option String)
    (calls : List JValue) : List JValue → Option StepOutcome
  | [] => none
  | c :: rest =>
    let name := callName c
    let args := callArgs c
    if name.isNull then some (malformedOutcome text plan calls)
    else
      match validate_arguments reg name args with
      | (true, _) => validateCalls reg text plan calls rest
      | (false, msg) => some (validationFailOutcome name args msg plan)

/-- The execution loop (agent.py lines 359-399); `Sum.inl` is the early
failure return, `Sum.inr` the accumulated `results`. -/
def execCalls (reg : Registry) (plan : Option String) (calls : List JValue) :
    List JValue → List CallResult → StepOutcome ⊕ List CallResult
  | [], acc => .inr acc
  | c :: rest, acc =>
    let name := callName c
    let args := callArgs c
    match call_tool reg name args with
    | .ok v => execCalls reg plan calls rest (acc ++ [⟨name, args, v, true, plan⟩])
    | .error e => .inl (execFailOutcome name calls acc e.message plan)

/-- The validate-then-execute phase reached once the list is known to be
non-empty and not a single explicit decline (agent.py lines 334-411). -/
def runValidatedPhase (reg : Registry) (text : String) (plan : Option String)
    (calls : List JValue) : StepOutcome :=
  match validateCalls reg text plan calls calls with
  | some o => o
  | none =>
    match execCalls reg plan calls calls [] with
    | .inl o => o
    | .inr results =>
      match results with
      | [r] => callResultToOutcome r
      | _ => batchOutcome calls results plan

/-- Models `DroneAgent.step` from the parse result on (agent.py lines
315-411). -/
def runParsedCalls (reg : Registry) (text : String) (plan : Option String)
    (calls : List JValue) : StepOutcome :=
  match calls with
  | [] => noCallOutcome text plan
  | [c] =>
    if (callName c).isNull then declineOutcome text plan calls c
    else runValidatedPhase reg text plan calls
  | _ => runValidatedPhase reg text plan calls

/-- Models `DroneAgent.step` as a function of the model's reply text. -/
def stepOutcome (reg : Registry) (text : String) : StepOutcome :=
  let (plan, calls) := extractPlanAndToolCalls text
  runParsedCalls reg text plan calls

/-! ## `DroneAgent.chat` (agent.py, lines 413-486)

The model collaborator is an oracle giving each step's reply text.  The
carried-forward images and the generated continuation prompts only shape the
next model request, so they are absorbed into the oracle; the final
`ui_callback` notification does not touch the history.  Each outcome is
appended to the history before the termination checks, which stop the loop
after an outcome whose `tool_name` is `None` or whose `success` (defaulting
to `False`) is falsy. -/

def chatLoop (reg : Registry) (llm : Nat → String) : Nat → Nat → List StepOutcome
  | _, 0 => []
  | stepNum, remaining + 1 =>
    let o := stepOutcome reg (llm stepNum)
    if o.tool_name.isNull then [o]
    else if o.success.getD false then o :: chatLoop reg llm (stepNum + 1) remaining
    else [o]

/-- Models `chat(user_input, max_steps)`; the returned value is the history. -/
def chat (reg : Registry) (llm : Nat → String) (maxSteps : Nat) :
    List StepOutcome :=
  chatLoop reg llm 0 maxSteps

/-! ## Helper functions and lemmas for the theorems -/

/-- The names of the tool's `required` list that are missing from `args`
(absent or bound to `null`), in schema order: the list comprehension of
tools.py line 247 for a schema whose `required` entries are strings. -/
def missingNames (reqNames : List String) (args : Args) : List String :=
  reqNames.filter (fun r => absentOrNull args (.str r))

theorem filter_absent_map_str (reqNames : List String) (args : Args) :
    (reqNames.map JValue.str).filter (absentOrNull args) =
      (missingNames reqNames args).map JValue.str := by
  induction reqNames with
  | nil => rfl
  | cons r rs ih =>
    by_cases h : absentOrNull args (.str r) = true
    · simp [missingNames, List.filter_cons, h] at ih ⊢
      exact ih
    · simp only [Bool.not_eq_true] at h
      simp [missingNames, List.filter_cons, h] at ih ⊢
      exact ih

theorem map_pyStrVal_map_str (l : List String) :
    (l.map JValue.str).map pyStrVal = l := by
  induction l with
  | nil => rfl
  | cons x xs ih => simp [pyStrVal] at ih ⊢; exact ih

theorem absentOrNull_str_iff (args : Args) (r : String) :
    absentOrNull args (.str r) = true ↔
      dictLookup args r = none ∨ dictLookup args r = some JValue.null := by
  have hdef : absentOrNull args (.str r) =
      (match dictLookup args r with
       | some v => v.isNull
       | none => true) := rfl
  rw [hdef]
  cases h : dictLookup args r with
  | none => simp
  | some v => cases v <;> simp [JValue.isNull]

theorem map_str_ne_nil {l : List String} (h : l ≠ []) :
    ((l.map JValue.str).isEmpty) = false := by
  cases l with
  | nil => exact absurd rfl h
  | cons x xs => rfl

/-- Claim C1:  For every registered tool name and every argument mapping,
`validate_arguments` fails iff at least one name in the tool's `required` list
is absent from the arguments or bound to `null`; extra or unknown argument
keys never appear in that condition, so they never cause failure; on failure
the message lists exactly the missing names, comma-joined, in the order they
appear in the schema's `required` list; an unregistered name fails with the
unknown-tool message. -/
theorem validate_arguments_spec (reg : Registry) (name : String) (args : Args) :
    (get_tool reg (.str name) = none →
      validate_arguments reg (.str name) args =
        (false, some ("未知工具: " ++ name))) ∧
    ∀ reqNames,
      (get_tool reg (.str name)).map (fun t => requiredList t.parameters) =
        some (reqNames.map JValue.str) →
      (((validate_arguments reg (.str name) args).1 = false ↔
         ∃ r ∈ reqNames,
           dictLookup args r = none ∨ dictLookup args r = some JValue.null) ∧
       (missingNames reqNames args ≠ [] →
         (validate_arguments reg (.str name) args).2 =
           some ("缺少必填参数: " ++
             String.intercalate ", " (missingNames reqNames args)))) := by
  constructor
  · intro h
    simp only [validate_arguments, h]
    rfl
  · intro reqNames hmap
    cases hg : get_tool reg (.str name) with
    | none => rw [hg] at hmap; exact absurd hmap (by simp)
    | some t =>
      rw [hg] at hmap
      have hmap' : requiredList t.parameters = reqNames.map JValue.str := by
        simpa using hmap
      have hmiss : (requiredList t.parameters).filter (absentOrNull args) =
          (missingNames reqNames args).map JValue.str := by
        rw [hmap']; exact filter_absent_map_str reqNames args
      by_cases hmn : missingNames reqNames args = []
      · have hval : validate_arguments reg (.str name) args = (true, none) := by
          simp only [validate_arguments, hg, hmiss, hmn, List.map_nil,
            List.isEmpty_nil, if_true]
        refine ⟨⟨fun h => absurd (hval ▸ h) (by simp), fun h => ?_⟩,
          fun hne => absurd hmn hne⟩
        obtain ⟨r, hr, habs⟩ := h
        have h1 : absentOrNull args (.str r) = true :=
          (absentOrNull_str_iff args r).2 habs
        have h2 : r ∈ missingNames reqNames args :=
          List.mem_filter.2 ⟨hr, h1⟩
        rw [hmn] at h2
        exact absurd h2 (List.not_mem_nil r)
      · have hval : validate_arguments reg (.str name) args =
            (false, some ("缺少必填参数: " ++ String.intercalate ", "
              (((missingNames reqNames args).map JValue.str).map pyStrVal))) := by
          simp only [validate_arguments, hg, hmiss, map_str_ne_nil hmn,
            Bool.false_eq_true, if_false]
        rw [hval]
        refine ⟨⟨fun _ => ?_, fun _ => rfl⟩, fun _ => by rw [map_pyStrVal_map_str]⟩
        cases hmn' : missingNames reqNames args with
        | nil => exact absurd hmn' hmn
        | cons m ms =>
          have hm : m ∈ missingNames reqNames args := by
            rw [hmn']; exact List.mem_cons_self m ms
          have hmem := List.mem_filter.1 hm
          exact ⟨m, hmem.1, (absentOrNull_str_iff args m).1 hmem.2⟩

/-- Witness for C1: in the real registry, calling `move_to_position` with only
`x` supplied plus an unknown extra key fails, and the message lists exactly
the missing `y, z` in schema order. -/
theorem validate_arguments_spec_witness :
    validate_arguments (defaultRegistry trivialClient) (.str "move_to_position")
      [("x", .num "1"), ("extra", .bool true)] =
      (false, some "缺少必填参数: y, z") := by
  have h := (validate_arguments_spec (defaultRegistry trivialClient)
    "move_to_position" [("x", .num "1"), ("extra", .bool true)]).2
    ["x", "y", "z"] (by rfl)
  have h1 : (validate_arguments (defaultRegistry trivialClient)
      (.str "move_to_position") [("x", .num "1"), ("extra", .bool true)]).1 =
      false :=
    h.1.2 ⟨"y", by decide, Or.inl rfl⟩
  have h2 : (validate_arguments (defaultRegistry trivialClient)
      (.str "move_to_position") [("x", .num "1"), ("extra", .bool true)]).2 =
      some "缺少必填参数: y, z" := by
    rw [h.2 (by decide)]
    decide
  exact Prod.ext_iff.2 ⟨h1, h2⟩

theorem string_data_append (s t : String) : (s ++ t).data = s.data ++ t.data := by
  cases s; cases t; rfl

theorem msg_prefix_ne (rest other : String) :
    "缺少必填参数: " ++ rest ≠ "未知工具: " ++ other := by
  intro h
  have hd : ("缺少必填参数: " ++ rest).data = ("未知工具: " ++ other).data :=
    congrArg String.data h
  rw [string_data_append, string_data_append] at hd
  have h1 : "缺少必填参数: ".data = '缺' :: "少必填参数: ".data := rfl
  have h2 : "未知工具: ".data = '未' :: "知工具: ".data := rfl
  rw [h1, h2] at hd
  simp only [List.cons_append] at hd
  injection hd with hc _
  exact absurd hc (by decide)

/-- A client whose `land` operation raises with message `boom` (for the
witnesses below). -/
def failLandClient : AirSimClientModel :=
  { trivialClient with land := fun _ => .error "boom" }

/-- Claim C7:  `call_tool` re-runs `validate_arguments` before invoking
anything: an unregistered name fails with the unknown-tool `ValueError`; a
validation failure fails with a `ValueError` carrying the missing-parameter
message, and the two messages can never coincide (one starts with
`缺少必填参数: `, the other with `未知工具: `), so the failures are
distinguishable; otherwise the binding is invoked with the arguments expanded
as named parameters, and a binding exception is re-raised as a `RuntimeError`
that embeds only the original message — the original exception type is
discarded, so binding failures surface as the single `runtimeError` kind. -/
theorem call_tool_spec (reg : Registry) (name : String) (args : Args) :
    (get_tool reg (.str name) = none →
      call_tool reg (.str name) args =
        .error (.valueError ("未知工具: " ++ name))) ∧
    (∀ msg, get_tool reg (.str name) ≠ none →
      validate_arguments reg (.str name) args = (false, some msg) →
      call_tool reg (.str name) args = .error (.valueError msg) ∧
      (∃ rest, msg = "缺少必填参数: " ++ rest) ∧
      ∀ other, msg ≠ "未知工具: " ++ other) ∧
    (∀ t, get_tool reg (.str name) = some t →
      (validate_arguments reg (.str name) args).1 = true →
      call_tool reg (.str name) args =
        (match t.func args with
         | .ok v => .ok v
         | .error m => .error (.runtimeError ("工具调用失败: " ++ m)))) := by
  refine ⟨fun h => ?_, fun msg hne hv => ?_, fun t hg hv => ?_⟩
  · simp only [call_tool, h]
    rfl
  · cases hg : get_tool reg (.str name) with
    | none => exact absurd hg hne
    | some t =>
      have hpre : ∃ rest, msg = "缺少必填参数: " ++ rest := by
        have hv' := hv
        simp only [validate_arguments, hg] at hv'
        by_cases he :
            ((requiredList t.parameters).filter (absentOrNull args)).isEmpty = true
        · rw [if_pos he] at hv'
          exact absurd (congrArg Prod.fst hv') (by simp)
        · rw [if_neg he] at hv'
          have := congrArg Prod.snd hv'
          simp only [Option.some_inj] at this
          exact ⟨_, this.symm⟩
      refine ⟨?_, hpre, ?_⟩
      · simp only [call_tool, hg, hv]
        rfl
      · obtain ⟨rest, hrest⟩ := hpre
        intro other
        rw [hrest]
        exact msg_prefix_ne rest other
  · cases hvp : validate_arguments reg (.str name) args with
    | mk ok m =>
      rw [hvp] at hv
      simp only at hv
      subst hv
      simp only [call_tool, hg, hvp]

/-- Witness for C7: in the real registry with a client whose `land` raises
`boom`, `call_tool` on `land` with no arguments validates, invokes the
binding (the lambda default `timeout_sec=20.0` applies), and wraps the
binding's exception as the execution-failure kind with the original message
embedded. -/
theorem call_tool_spec_witness :
    call_tool (defaultRegistry failLandClient) (.str "land") [] =
      .error (.runtimeError "工具调用失败: boom") := by
  have h := (call_tool_spec (defaultRegistry failLandClient) "land" []).2.2
    ⟨"land", "无人机降落", landParams, landTool failLandClient⟩ (by rfl) (by rfl)
  exact h

/-- When the whole-text parse does not produce a tool-call shape, the parser
falls through to the embedded-JSON searches. -/
theorem extract_fallback (text : String)
    (hdirect : ∀ v, parseJson text = some v →
      isToolCallObj v = false ∧ isToolCallList v = false) :
    extractPlanAndToolCalls text =
      ((if planFromMatches text.toList (reSearch listPat text.toList)
            (reSearch dictPat text.toList) = "" then none
        else some (planFromMatches text.toList (reSearch listPat text.toList)
            (reSearch dictPat text.toList))),
       embeddedToolCalls text.toList (reSearch listPat text.toList)
         (reSearch dictPat text.toList)) := by
  unfold extractPlanAndToolCalls
  cases hp : parseJson text with
  | none => rfl
  | some v =>
    obtain ⟨h1, h2⟩ := hdirect v hp
    simp only [h1, h2, Bool.false_eq_true, if_false]

/-- Claim C4:  If the entire text parses as JSON and the value is an object
containing the key `tool_name`, the parser returns exactly that object as a
one-element call list with a null plan; if the value is an array whose every
element is an object containing `tool_name`, the array becomes the call list,
order preserved, with a null plan.  In both cases the definition returns from
the direct branch, before the embedded-JSON searches. -/
theorem extract_whole_text_spec (text : String) (v : JValue)
    (hp : parseJson text = some v) :
    (isToolCallObj v = true → extractPlanAndToolCalls text = (none, [v])) ∧
    (isToolCallList v = true → extractPlanAndToolCalls text = (none, arrElems v)) := by
  constructor
  · intro h
    unfold extractPlanAndToolCalls
    rw [hp]
    simp only [h, if_true]
  · intro h
    have hobj : isToolCallObj v = false := by
      cases v <;> simp_all [isToolCallList, isToolCallObj, JValue.isObj]
    unfold extractPlanAndToolCalls
    rw [hp]
    simp only [h, hobj, Bool.false_eq_true, if_false, if_true]

/-- Witness for C4: a bare JSON object reply becomes a single tool call with
no plan. -/
theorem extract_whole_text_spec_witness :
    extractPlanAndToolCalls "\x7b\"tool_name\": \"hover\", \"arguments\": \x7b\x7d\x7d" =
      (none, [JValue.obj [("tool_name", .str "hover"), ("arguments", .obj [])]]) :=
  (extract_whole_text_spec _
    (JValue.obj [("tool_name", .str "hover"), ("arguments", .obj [])])
    (by rfl)).1 (by rfl)

/-- Claim C5:  The parser is a total function — no input raises — and when a
span matched by the embedded list pattern (or, with no list match, the
embedded dict pattern) fails to parse as JSON of the expected shape, the
result degrades to an empty `tool_calls` list. -/
theorem extract_degrades_spec (text : String)
    (hdirect : ∀ v, parseJson text = some v →
      isToolCallObj v = false ∧ isToolCallList v = false) :
    (∀ s e, reSearch listPat text.toList = some (s, e) →
      (∀ v, parseJson (String.mk (sliceChars text.toList s e)) = some v →
        isToolCallList v = false) →
      (extractPlanAndToolCalls text).2 = []) ∧
    (reSearch listPat text.toList = none →
     ∀ s e, reSearch dictPat text.toList = some (s, e) →
      (∀ v, parseJson (String.mk (sliceChars text.toList s e)) = some v →
        isToolCallObj v = false) →
      (extractPlanAndToolCalls text).2 = []) := by
  rw [extract_fallback text hdirect]
  constructor
  · intro s e hl hspan
    simp only [embeddedToolCalls, hl]
    cases hp : parseJson (String.mk (sliceChars text.toList s e)) with
    | none => rfl
    | some v => simp only [hspan v hp, Bool.false_eq_true, if_false]
  · intro hl s e hd hspan
    simp only [embeddedToolCalls, hl, hd]
    cases hp : parseJson (String.mk (sliceChars text.toList s e)) with
    | none => rfl
    | some v => simp only [hspan v hp, Bool.false_eq_true, if_false]

/-- Witness for C5: malformed JSON after valid-looking `"tool_name"` text
yields an empty call list. -/
theorem extract_degrades_spec_witness :
    (extractPlanAndToolCalls "aa [\x7b not json \"tool_name\" zz \x7d] bb").2 = [] := by
  have h := (extract_degrades_spec "aa [\x7b not json \"tool_name\" zz \x7d] bb"
    (by intro v hv
        simp only [show parseJson "aa [\x7b not json \"tool_name\" zz \x7d] bb" =
          none from rfl] at hv
        exact Option.noConfusion hv)).1
    3 32 (by rfl)
    (by intro v hv
        simp only [show parseJson (String.mk (sliceChars
          "aa [\x7b not json \"tool_name\" zz \x7d] bb".toList 3 32)) =
          none from rfl] at hv
        exact Option.noConfusion hv)
  exact h

/-- Claim C6:  When the whole-text parse does not consume the reply: the plan is
the text before the matched span — the list match taking precedence over the
dict match — stripped of surrounding whitespace and normalised to null when
empty; with no match at all the whole stripped text becomes the plan and the
call list is empty; and when the list-matched span parses as an array of
tool-call objects, that array (length and order preserved) is the call
list. -/
theorem extract_plan_spec (text : String)
    (hdirect : ∀ v, parseJson text = some v →
      isToolCallObj v = false ∧ isToolCallList v = false) :
    (∀ s e, reSearch listPat text.toList = some (s, e) →
      (extractPlanAndToolCalls text).1 =
        (if pyStrip (String.mk (text.toList.take s)) = "" then none
         else some (pyStrip (String.mk (text.toList.take s))))) ∧
    (reSearch listPat text.toList = none →
     ∀ s e, reSearch dictPat text.toList = some (s, e) →
      (extractPlanAndToolCalls text).1 =
        (if pyStrip (String.mk (text.toList.take s)) = "" then none
         else some (pyStrip (String.mk (text.toList.take s))))) ∧
    (reSearch listPat text.toList = none → reSearch dictPat text.toList = none →
      extractPlanAndToolCalls text =
        ((if pyStrip (String.mk text.toList) = "" then none
          else some (pyStrip (String.mk text.toList))), [])) ∧
    (∀ s e xs, reSearch listPat text.toList = some (s, e) →
      parseJson (String.mk (sliceChars text.toList s e)) = some (JValue.arr xs) →
      xs.all (fun p => p.isObj && p.hasKey "tool_name") = true →
      (extractPlanAndToolCalls text).2 = xs) := by
  rw [extract_fallback text hdirect]
  refine ⟨fun s e hl => ?_, fun hl s e hd => ?_, fun hl hd => ?_,
    fun s e xs hl hp hall => ?_⟩
  · simp only [planFromMatches, hl]
  · simp only [planFromMatches, hl, hd]
  · simp only [planFromMatches, embeddedToolCalls, hl, hd]
  · simp only [embeddedToolCalls, hl, hp, isToolCallList, hall, if_true]
    rfl

/-- Witness for C6: a plan prefix followed by a valid JSON array of two
tool-call objects yields the stripped prefix as the plan and both calls in
order. -/
theorem extract_plan_spec_witness :
    (extractPlanAndToolCalls
      "规划：起飞\n[\x7b\"tool_name\": \"takeoff\"\x7d, \x7b\"tool_name\": \"land\"\x7d]").1 =
      some "规划：起飞" ∧
    (extractPlanAndToolCalls
      "规划：起飞\n[\x7b\"tool_name\": \"takeoff\"\x7d, \x7b\"tool_name\": \"land\"\x7d]").2 =
      [JValue.obj [("tool_name", .str "takeoff")],
       JValue.obj [("tool_name", .str "land")]] := by
  have h := extract_plan_spec
    "规划：起飞\n[\x7b\"tool_name\": \"takeoff\"\x7d, \x7b\"tool_name\": \"land\"\x7d]"
    (by intro v hv
        simp only [show parseJson
          "规划：起飞\n[\x7b\"tool_name\": \"takeoff\"\x7d, \x7b\"tool_name\": \"land\"\x7d]" =
          none from rfl] at hv
        exact Option.noConfusion hv)
  constructor
  · have h1 := h.1 6 55 (by rfl)
    rw [h1]
    rfl
  · exact h.2.2.2 6 55
      [JValue.obj [("tool_name", .str "takeoff")],
       JValue.obj [("tool_name", .str "land")]]
      (by rfl) (by rfl) (by rfl)

/-- The value `call_tool` returns for a parsed call when it succeeds. -/
def callOk (reg : Registry) (c : JValue) : Option JValue :=
  match call_tool reg (callName c) (callArgs c) with
  | .ok v => some v
  | .error _ => none

/-- The message of the exception `call_tool` raises for a parsed call, if
any. -/
def callErr (reg : Registry) (c : JValue) : Option String :=
  match call_tool reg (callName c) (callArgs c) with
  | .ok _ => none
  | .error e => some e.message

/-- The `results` entry the execution loop appends for a successful call. -/
def mkCallResult (reg : Registry) (plan : Option String) (c : JValue) :
    CallResult :=
  ⟨callName c, callArgs c, (callOk reg c).getD .null, true, plan⟩

theorem validateCalls_none_of (reg : Registry) (text : String)
    (plan : Option String) (calls0 : List JValue) (l : List JValue)
    (h : ∀ c ∈ l, (callName c).isNull = false ∧
      (validate_arguments reg (callName c) (callArgs c)).1 = true) :
    validateCalls reg text plan calls0 l = none := by
  induction l with
  | nil => rfl
  | cons c rest ih =>
    obtain ⟨h1, h2⟩ := h c (List.mem_cons_self c rest)
    simp only [validateCalls, h1, Bool.false_eq_true, if_false]
    cases hv : validate_arguments reg (callName c) (callArgs c) with
    | mk ok m =>
      rw [hv] at h2
      simp only at h2
      subst h2
      exact ih (fun d hd => h d (List.mem_cons_of_mem c hd))

theorem execCalls_append_ok (reg : Registry) (plan : Option String)
    (calls0 : List JValue) (pre rest : List JValue) (acc : List CallResult)
    (h : ∀ d ∈ pre, (callOk reg d).isSome = true) :
    execCalls reg plan calls0 (pre ++ rest) acc =
      execCalls reg plan calls0 rest (acc ++ pre.map (mkCallResult reg plan)) := by
  induction pre generalizing acc with
  | nil => simp
  | cons d ds ih =>
    have hd := h d (List.mem_cons_self d ds)
    cases hc : call_tool reg (callName d) (callArgs d) with
    | error e => simp [callOk, hc] at hd
    | ok v =>
      have hmk : mkCallResult reg plan d = ⟨callName d, callArgs d, v, true, plan⟩ := by
        simp [mkCallResult, callOk, hc]
      simp only [List.cons_append, execCalls, hc]
      simp only [List.append_eq]
      rw [show acc ++ List.map (mkCallResult reg plan) (d :: ds) =
          (acc ++ [mkCallResult reg plan d]) ++ List.map (mkCallResult reg plan) ds by
        simp [List.append_assoc]]
      rw [hmk]
      exact ih (acc ++ [⟨callName d, callArgs d, v, true, plan⟩])
        (fun x hx => h x (List.mem_cons_of_mem d hx))

theorem execCalls_fail_head (reg : Registry) (plan : Option String)
    (calls0 : List JValue) (c : JValue) (post : List JValue)
    (acc : List CallResult) (m : String) (h : callErr reg c = some m) :
    execCalls reg plan calls0 (c :: post) acc =
      .inl (execFailOutcome (callName c) calls0 acc m plan) := by
  cases hc : call_tool reg (callName c) (callArgs c) with
  | ok v => simp [callErr, hc] at h
  | error e =>
    have hm : e.message = m := by
      simp [callErr, hc] at h
      exact h
    simp only [execCalls, hc, hm]

theorem runParsedCalls_validated (reg : Registry) (text : String)
    (plan : Option String) (calls : List JValue) (hne : calls ≠ [])
    (hnamed : ∀ c ∈ calls, (callName c).isNull = false) :
    runParsedCalls reg text plan calls = runValidatedPhase reg text plan calls := by
  match calls with
  | [] => exact absurd rfl hne
  | [c] =>
    have h := hnamed c (List.mem_cons_self c [])
    simp only [runParsedCalls, h, Bool.false_eq_true, if_false]
  | c1 :: c2 :: rest => rfl

/-- Claim C2:  When the step executor runs a list of validated named calls and
the call at position `|pre| + 1` is the first whose binding raises, execution
stops there: the outcome is the execution-failure dict — `success = false`,
`error_type = "execution_error"`, the failing call's tool name, the wrapped
message — and its `results` holds exactly the `|pre|` outcomes of the calls
that completed before the failure, in list order.  The statement's hypotheses
constrain the trailing calls only through naming and validation (never their
bindings), and the outcome is a closed expression in which the trailing calls
appear only as data inside `tool_calls`: the calls after the failing one are
never invoked. -/
theorem step_exec_failure (reg : Registry) (text : String) (plan : Option String)
    (pre post : List JValue) (c : JValue) (m : String)
    (hnv : ∀ d ∈ pre ++ c :: post, (callName d).isNull = false ∧
      (validate_arguments reg (callName d) (callArgs d)).1 = true)
    (hpre : ∀ d ∈ pre, (callOk reg d).isSome = true)
    (hfail : callErr reg c = some m) :
    runParsedCalls reg text plan (pre ++ c :: post) =
      execFailOutcome (callName c) (pre ++ c :: post)
        (pre.map (mkCallResult reg plan)) m plan := by
  have hne : pre ++ c :: post ≠ [] := by simp
  rw [runParsedCalls_validated reg text plan _ hne (fun d hd => (hnv d hd).1)]
  unfold runValidatedPhase
  rw [validateCalls_none_of reg text plan _ _ hnv]
  rw [execCalls_append_ok reg plan _ pre (c :: post) [] hpre]
  rw [execCalls_fail_head reg plan _ c post _ m hfail]
  simp

/-- Witness for C2: a batch of three calls (`takeoff`, `land`, `hover`)
against a client whose `land` raises yields the execution-failure outcome
whose `results` holds only the first call's outcome. -/
theorem step_exec_failure_witness :
    runParsedCalls (defaultRegistry failLandClient) "t" none
      [JValue.obj [("tool_name", .str "takeoff")],
       JValue.obj [("tool_name", .str "land")],
       JValue.obj [("tool_name", .str "hover")]] =
      execFailOutcome (.str "land")
        [JValue.obj [("tool_name", .str "takeoff")],
         JValue.obj [("tool_name", .str "land")],
         JValue.obj [("tool_name", .str "hover")]]
        [mkCallResult (defaultRegistry failLandClient) none
          (JValue.obj [("tool_name", .str "takeoff")])]
        "工具调用失败: boom" none := by
  have h := step_exec_failure (defaultRegistry failLandClient) "t" none
    [JValue.obj [("tool_name", .str "takeoff")]]
    [JValue.obj [("tool_name", .str "hover")]]
    (JValue.obj [("tool_name", .str "land")]) "工具调用失败: boom"
    (by intro d hd
        simp only [List.cons_append, List.nil_append, List.mem_cons,
          List.not_mem_nil, or_false] at hd
        rcases hd with h1 | h2 | h3
        · subst h1; exact ⟨rfl, rfl⟩
        · subst h2; exact ⟨rfl, rfl⟩
        · subst h3; exact ⟨rfl, rfl⟩)
    (by intro d hd
        simp only [List.mem_singleton] at hd
        subst hd
        rfl)
    (by rfl)
  exact h

theorem get_tool_schema_congr (reg reg' : Registry)
    (h : reg'.map (fun t => (t.name, t.parameters)) =
      reg.map (fun t => (t.name, t.parameters))) (n : JValue) :
    (get_tool reg' n).map (fun t => t.parameters) =
      (get_tool reg n).map (fun t => t.parameters) := by
  induction reg generalizing reg' with
  | nil =>
    have : reg' = [] := by
      cases reg' with
      | nil => rfl
      | cons t ts => simp at h
    subst this; rfl
  | cons t ts ih =>
    cases reg' with
    | nil => simp at h
    | cons t' ts' =>
      simp only [List.map_cons, List.cons.injEq, Prod.mk.injEq] at h
      obtain ⟨⟨hn, hp⟩, hrest⟩ := h
      have hrec := ih ts' hrest
      cases n with
      | str s =>
        by_cases hs : s = t.name
        · have e1 : get_tool (t' :: ts') (.str s) = some t' := by
            simp [get_tool, List.find?_cons, hn, hs]
          have e2 : get_tool (t :: ts) (.str s) = some t := by
            simp [get_tool, List.find?_cons, hs]
          rw [e1, e2]
          simp [hp]
        · have e1 : get_tool (t' :: ts') (.str s) = get_tool ts' (.str s) := by
            simp [get_tool, List.find?_cons, hn, hs]
          have e2 : get_tool (t :: ts) (.str s) = get_tool ts (.str s) := by
            simp [get_tool, List.find?_cons, hs]
          rw [e1, e2]
          exact hrec
      | null => simpa [get_tool, List.find?_cons] using hrec
      | bool b => simpa [get_tool, List.find?_cons] using hrec
      | num lexeme => simpa [get_tool, List.find?_cons] using hrec
      | arr elems => simpa [get_tool, List.find?_cons] using hrec
      | obj fields => simpa [get_tool, List.find?_cons] using hrec

theorem validate_arguments_schema_congr (reg reg' : Registry)
    (h : reg'.map (fun t => (t.name, t.parameters)) =
      reg.map (fun t => (t.name, t.parameters))) (n : JValue) (a : Args) :
    validate_arguments reg' n a = validate_arguments reg n a := by
  have hg := get_tool_schema_congr reg reg' h n
  unfold validate_arguments
  cases h1 : get_tool reg n with
  | none =>
    cases h2 : get_tool reg' n with
    | none => rfl
    | some t' => rw [h1, h2] at hg; simp at hg
  | some t =>
    cases h2 : get_tool reg' n with
    | none => rw [h1, h2] at hg; simp at hg
    | some t' =>
      rw [h1, h2] at hg
      simp at hg
      simp [hg]

theorem validateCalls_first_fail (reg : Registry) (text : String)
    (plan : Option String) (calls0 : List JValue) (pre post : List JValue)
    (c : JValue)
    (hnamed : ∀ d ∈ pre ++ c :: post, (callName d).isNull = false)
    (hpre : ∀ d ∈ pre, (validate_arguments reg (callName d) (callArgs d)).1 = true)
    (hfail : (validate_arguments reg (callName c) (callArgs c)).1 = false) :
    validateCalls reg text plan calls0 (pre ++ c :: post) =
      some (validationFailOutcome (callName c) (callArgs c)
        (validate_arguments reg (callName c) (callArgs c)).2 plan) := by
  induction pre with
  | nil =>
    have h1 := hnamed c (by simp)
    simp only [List.nil_append, validateCalls, h1, Bool.false_eq_true, if_false]
    cases hv : validate_arguments reg (callName c) (callArgs c) with
    | mk ok m =>
      rw [hv] at hfail
      simp only at hfail
      subst hfail
      rfl
  | cons d ds ih =>
    have h1 := hnamed d (by simp)
    simp only [List.cons_append, validateCalls, h1, Bool.false_eq_true, if_false]
    have h2 := hpre d (by simp)
    cases hv : validate_arguments reg (callName d) (callArgs d) with
    | mk ok m =>
      rw [hv] at h2
      simp only at h2
      subst h2
      exact ih (fun x hx => hnamed x (by simp at hx ⊢; tauto))
        (fun x hx => hpre x (List.mem_cons_of_mem d hx))

/-- Claim C3:  With a parsed list of named calls, the step executor validates
before executing: if the call at position `|pre| + 1` is the first to fail
validation, the outcome is the validation-failure dict — `success = false`,
`error_type = "missing_required_parameters"`, that call's tool name and
arguments — and no binding is invoked for any call: the same outcome results
for every registry that shares the tool names and schemas, whatever its
bindings do (second conjunct). -/
theorem step_validation_gate (reg : Registry) (text : String)
    (plan : Option String) (pre post : List JValue) (c : JValue)
    (hnamed : ∀ d ∈ pre ++ c :: post, (callName d).isNull = false)
    (hpre : ∀ d ∈ pre, (validate_arguments reg (callName d) (callArgs d)).1 = true)
    (hfail : (validate_arguments reg (callName c) (callArgs c)).1 = false) :
    runParsedCalls reg text plan (pre ++ c :: post) =
      validationFailOutcome (callName c) (callArgs c)
        (validate_arguments reg (callName c) (callArgs c)).2 plan ∧
    ∀ reg' : Registry,
      reg'.map (fun t => (t.name, t.parameters)) =
        reg.map (fun t => (t.name, t.parameters)) →
      runParsedCalls reg' text plan (pre ++ c :: post) =
        validationFailOutcome (callName c) (callArgs c)
          (validate_arguments reg (callName c) (callArgs c)).2 plan := by
  have main : ∀ r : Registry,
      (∀ x : JValue, ∀ a : Args, validate_arguments r x a = validate_arguments reg x a) →
      runParsedCalls r text plan (pre ++ c :: post) =
        validationFailOutcome (callName c) (callArgs c)
          (validate_arguments reg (callName c) (callArgs c)).2 plan := by
    intro r hr
    have hne : pre ++ c :: post ≠ [] := by simp
    rw [runParsedCalls_validated r text plan _ hne hnamed]
    unfold runValidatedPhase
    rw [validateCalls_first_fail r text plan _ pre post c hnamed
      (fun d hd => by rw [hr]; exact hpre d hd)
      (by rw [hr]; exact hfail)]
    rw [hr]
  exact ⟨main reg (fun _ _ => rfl),
    fun reg' hsch => main reg'
      (fun x a => validate_arguments_schema_congr reg reg' hsch x a)⟩

/-- Witness for C3: a two-call list whose second call (`arm` with empty
arguments) fails validation executes nothing and reports the failing call. -/
theorem step_validation_gate_witness :
    runParsedCalls (defaultRegistry trivialClient) "t" none
      [JValue.obj [("tool_name", .str "hover")],
       JValue.obj [("tool_name", .str "arm"), ("arguments", .obj [])]] =
      validationFailOutcome (.str "arm") [] (some "缺少必填参数: armed") none := by
  have h := (step_validation_gate (defaultRegistry trivialClient) "t" none
    [JValue.obj [("tool_name", .str "hover")]] []
    (JValue.obj [("tool_name", .str "arm"), ("arguments", .obj [])])
    (by intro d hd
        simp only [List.cons_append, List.nil_append, List.mem_cons,
          List.not_mem_nil, or_false] at hd
        rcases hd with h1 | h2
        · subst h1; rfl
        · subst h2; rfl)
    (by intro d hd
        simp only [List.mem_singleton] at hd
        subst hd
        rfl)
    (by rfl)).1
  exact h

/-- Claim C10:  A parsed call that has a `tool_name` but no `"arguments"` key is
treated as carrying the empty argument mapping in both phases: validation
checks the tool against the empty dict (so a tool with an empty `required`
list validates), and execution invokes the binding with no named arguments,
so the lambda's own defaults apply. -/
theorem step_default_arguments (reg : Registry) (text : String)
    (plan : Option String) (n : String) (t : Tool)
    (hg : get_tool reg (.str n) = some t)
    (hreq : requiredList t.parameters = []) :
    callArgs (JValue.obj [("tool_name", .str n)]) = [] ∧
    validate_arguments reg (.str n)
      (callArgs (JValue.obj [("tool_name", .str n)])) = (true, none) ∧
    runParsedCalls reg text plan [JValue.obj [("tool_name", .str n)]] =
      (match t.func [] with
       | .ok v => callResultToOutcome ⟨.str n, [], v, true, plan⟩
       | .error m =>
         execFailOutcome (.str n) [JValue.obj [("tool_name", .str n)]] []
           ("工具调用失败: " ++ m) plan) := by
  have hargs : callArgs (JValue.obj [("tool_name", .str n)]) = [] := rfl
  have hname : callName (JValue.obj [("tool_name", .str n)]) = .str n := by
    simp [callName, JValue.lookup, dictLookup]
  have hval : validate_arguments reg (.str n) [] = (true, none) := by
    simp only [validate_arguments, hg, hreq, List.filter_nil, List.isEmpty_nil,
      if_true]
  refine ⟨hargs, hval, ?_⟩
  have hcall : call_tool reg (.str n) [] =
      (match t.func [] with
       | .ok v => .ok v
       | .error m => .error (.runtimeError ("工具调用失败: " ++ m))) := by
    simp only [call_tool, hg, hval]
  have hnn : (callName (JValue.obj [("tool_name", .str n)])).isNull = false := by
    rw [hname]; rfl
  rw [runParsedCalls_validated reg text plan _ (by simp)
    (by intro d hd; simp only [List.mem_singleton] at hd; subst hd; exact hnn)]
  unfold runValidatedPhase
  rw [validateCalls_none_of reg text plan _ _
    (by intro d hd; simp only [List.mem_singleton] at hd; subst hd
        refine ⟨hnn, ?_⟩
        rw [hname, hargs, hval])]
  cases hf : t.func [] with
  | ok v =>
    have : execCalls reg plan [JValue.obj [("tool_name", .str n)]]
        [JValue.obj [("tool_name", .str n)]] [] =
        .inr [⟨.str n, [], v, true, plan⟩] := by
      simp only [execCalls, hname, hargs, hcall, hf]
      rfl
    rw [this]
  | error m =>
    have : execCalls reg plan [JValue.obj [("tool_name", .str n)]]
        [JValue.obj [("tool_name", .str n)]] [] =
        .inl (execFailOutcome (.str n) [JValue.obj [("tool_name", .str n)]] []
          ("工具调用失败: " ++ m) plan) := by
      simp only [execCalls, hname, hargs, hcall, hf]
      rfl
    rw [this]

/-- Witness for C10: `hover` (no required parameters) called without an
`arguments` key validates and its binding runs with the lambda defaults. -/
theorem step_default_arguments_witness :
    runParsedCalls (defaultRegistry trivialClient) "t" none
      [JValue.obj [("tool_name", .str "hover")]] =
      callResultToOutcome ⟨.str "hover", [], .null, true, none⟩ := by
  have h := (step_default_arguments (defaultRegistry trivialClient) "t" none
    "hover" ⟨"hover", "无人机悬停（保持当前位置和姿态）", hoverParams,
      hoverTool trivialClient⟩ (by rfl) (by rfl)).2.2
  exact h

theorem getD_false_eq_true {o : Option Bool} (h : o.getD false = true) :
    o = some true := by
  cases o with
  | none => simp at h
  | some b => cases b with
    | true => rfl
    | false => simp at h

theorem chatLoop_spec (reg : Registry) (llm : Nat → String) :
    ∀ remaining stepNum : Nat,
      (chatLoop reg llm stepNum remaining).length ≤ remaining ∧
      (1 ≤ remaining → 1 ≤ (chatLoop reg llm stepNum remaining).length) ∧
      (∀ i, i < (chatLoop reg llm stepNum remaining).length →
        (chatLoop reg llm stepNum remaining).get? i =
          some (stepOutcome reg (llm (stepNum + i)))) ∧
      (∀ i, i + 1 < (chatLoop reg llm stepNum remaining).length →
        (stepOutcome reg (llm (stepNum + i))).tool_name.isNull = false ∧
        (stepOutcome reg (llm (stepNum + i))).success = some true) := by
  intro remaining
  induction remaining with
  | zero =>
    intro s
    refine ⟨by simp [chatLoop], by omega, ?_, ?_⟩
    · intro i hi; simp [chatLoop] at hi
    · intro i hi; simp [chatLoop] at hi
  | succ r ih =>
    intro s
    by_cases h1 : (stepOutcome reg (llm s)).tool_name.isNull = true
    · have he : chatLoop reg llm s (r + 1) = [stepOutcome reg (llm s)] := by
        simp [chatLoop, h1]
      refine ⟨by rw [he]; simp, fun _ => by rw [he]; simp, ?_, ?_⟩
      · intro i hi
        rw [he] at hi ⊢
        have hz : i = 0 := by simp at hi; omega
        subst hz; simp
      · intro i hi
        rw [he] at hi
        simp at hi
    · by_cases h2 : (stepOutcome reg (llm s)).success.getD false = true
      · have he : chatLoop reg llm s (r + 1) =
            stepOutcome reg (llm s) :: chatLoop reg llm (s + 1) r := by
          simp [chatLoop, h1, h2]
        obtain ⟨ihl, _, ihg, ihp⟩ := ih (s + 1)
        refine ⟨by rw [he]; simp; omega, fun _ => by rw [he]; simp, ?_, ?_⟩
        · intro i hi
          rw [he] at hi ⊢
          cases i with
          | zero => simp
          | succ j =>
            simp only [List.get?_cons_succ]
            simp only [List.length_cons] at hi
            have hj := ihg j (by omega)
            have harith : s + 1 + j = s + (j + 1) := by omega
            rw [harith] at hj
            exact hj
        · intro i hi
          rw [he] at hi
          simp only [List.length_cons] at hi
          cases i with
          | zero =>
            refine ⟨by simpa using h1, ?_⟩
            have := getD_false_eq_true h2
            simpa using this
          | succ j =>
            have := ihp j (by omega)
            have harith : s + 1 + j = s + (j + 1) := by omega
            rw [harith] at this
            exact this
      · have he : chatLoop reg llm s (r + 1) = [stepOutcome reg (llm s)] := by
          simp [chatLoop, h1, h2]
        refine ⟨by rw [he]; simp, fun _ => by rw [he]; simp, ?_, ?_⟩
        · intro i hi
          rw [he] at hi ⊢
          have hz : i = 0 := by simp at hi; omega
          subst hz; simp
        · intro i hi
          rw [he] at hi
          simp at hi

/-- Claim C8:  `chat` executes at most `max_steps` steps (and at least one when
`max_steps ≥ 1`); the returned history is exactly the ordered sequence of the
executed steps' outcomes, each appended before the termination checks (so a
terminal failing outcome is itself in the history); and a step is followed by
another only when its outcome has a non-null `tool_name` and `success = true`
(an absent `success` counts as `False` through `get("success", False)`). -/
theorem chat_spec (reg : Registry) (llm : Nat → String) (maxSteps : Nat) :
    (chat reg llm maxSteps).length ≤ maxSteps ∧
    (1 ≤ maxSteps → 1 ≤ (chat reg llm maxSteps).length) ∧
    (∀ i, i < (chat reg llm maxSteps).length →
      (chat reg llm maxSteps).get? i = some (stepOutcome reg (llm i))) ∧
    (∀ i, i + 1 < (chat reg llm maxSteps).length →
      (stepOutcome reg (llm i)).tool_name.isNull = false ∧
      (stepOutcome reg (llm i)).success = some true) := by
  have h := chatLoop_spec reg llm maxSteps 0
  simpa [chat] using h

/-- Witness for C8: with `max_steps = 1` and a model that always returns one
valid `hover` call, the history has length exactly 1. -/
theorem chat_spec_witness :
    (chat (defaultRegistry trivialClient)
      (fun _ => "\x7b\"tool_name\": \"hover\", \"arguments\": \x7b\x7d\x7d") 1).length
      = 1 := by
  have h := chat_spec (defaultRegistry trivialClient)
    (fun _ => "\x7b\"tool_name\": \"hover\", \"arguments\": \x7b\x7d\x7d") 1
  have h1 := h.1
  have h2 := h.2.1 (by omega)
  omega

theorem validate_snd_some_of_false (reg : Registry) (n : JValue) (a : Args)
    (h : (validate_arguments reg n a).1 = false) :
    ∃ e, (validate_arguments reg n a).2 = some e := by
  cases hg : get_tool reg n with
  | none =>
    refine ⟨"未知工具: " ++ pyStrVal n, ?_⟩
    simp only [validate_arguments, hg]
  | some t =>
    by_cases he : ((requiredList t.parameters).filter (absentOrNull a)).isEmpty = true
    · exfalso
      simp only [validate_arguments, hg, he, if_true] at h
      exact Bool.noConfusion h
    · refine ⟨"缺少必填参数: " ++ String.intercalate ", "
        (((requiredList t.parameters).filter (absentOrNull a)).map pyStrVal), ?_⟩
      simp only [validate_arguments, hg, if_neg he]

theorem validateCalls_none_named (reg : Registry) (text : String)
    (plan : Option String) (calls0 : List JValue) (l : List JValue)
    (h : validateCalls reg text plan calls0 l = none) :
    ∀ c ∈ l, (callName c).isNull = false := by
  induction l with
  | nil => intro c hc; exact absurd hc (List.not_mem_nil c)
  | cons c rest ih =>
    intro d hd
    by_cases h1 : (callName c).isNull = true
    · simp [validateCalls, h1] at h
    · have h1' : (callName c).isNull = false := by
        simpa using h1
      rcases List.mem_cons.1 hd with rfl | hd'
      · exact h1'
      · cases hv : validate_arguments reg (callName c) (callArgs c) with
        | mk ok m =>
          cases ok with
          | false => simp [validateCalls, h1', hv] at h
          | true =>
            simp only [validateCalls, h1', Bool.false_eq_true, if_false, hv] at h
            exact ih h d hd'

theorem validateCalls_some_inv (reg : Registry) (text : String)
    (plan : Option String) (calls0 : List JValue) (l : List JValue)
    (o : StepOutcome) (h : validateCalls reg text plan calls0 l = some o) :
    (o.success = none ∧ o.tool_name = JValue.null ∧
      o.reason = some (.str "工具列表中存在空的 tool_name")) ∨
    (o.tool_name.isNull = false ∧ o.success = some false ∧
      (∃ e, o.error = some e) ∧
      o.error_type = some "missing_required_parameters" ∧ o.reason = none) := by
  induction l with
  | nil => simp [validateCalls] at h
  | cons c rest ih =>
    by_cases h1 : (callName c).isNull = true
    · left
      simp only [validateCalls, h1, if_true, Option.some_inj] at h
      subst h
      exact ⟨rfl, rfl, rfl⟩
    · have h1' : (callName c).isNull = false := by simpa using h1
      cases hv : validate_arguments reg (callName c) (callArgs c) with
      | mk ok m =>
        cases ok with
        | true =>
          simp only [validateCalls, h1', Bool.false_eq_true, if_false, hv] at h
          exact ih h
        | false =>
          right
          simp only [validateCalls, h1', Bool.false_eq_true, if_false, hv,
            Option.some_inj] at h
          subst h
          have hm : ∃ e, m = some e := by
            have := validate_snd_some_of_false reg (callName c) (callArgs c)
              (by rw [hv])
            rw [hv] at this
            exact this
          obtain ⟨e, he⟩ := hm
          subst he
          exact ⟨h1', rfl, ⟨e, rfl⟩, rfl, rfl⟩

theorem execCalls_inl_inv (reg : Registry) (plan : Option String)
    (calls0 : List JValue) (l : List JValue) (acc : List CallResult)
    (hnames : ∀ c ∈ l, (callName c).isNull = false) (o : StepOutcome)
    (h : execCalls reg plan calls0 l acc = .inl o) :
    o.tool_name.isNull = false ∧ o.success = some false ∧
    (∃ e, o.error = some e) ∧ o.error_type = some "execution_error" ∧
    o.reason = none := by
  induction l generalizing acc with
  | nil => simp [execCalls] at h
  | cons c rest ih =>
    cases hc : call_tool reg (callName c) (callArgs c) with
    | ok v =>
      simp only [execCalls, hc] at h
      exact ih _ (fun d hd => hnames d (List.mem_cons_of_mem c hd)) h
    | error e =>
      simp only [execCalls, hc, Sum.inl.injEq] at h
      subst h
      exact ⟨hnames c (List.mem_cons_self c rest), rfl, ⟨_, rfl⟩, rfl, rfl⟩

theorem execCalls_inr_inv (reg : Registry) (plan : Option String)
    (calls0 : List JValue) (l : List JValue) (acc : List CallResult)
    (hl : ∀ c ∈ l, (callName c).isNull = false)
    (hacc : ∀ r ∈ acc, r.tool_name.isNull = false ∧ r.success = true)
    (res : List CallResult) (h : execCalls reg plan calls0 l acc = .inr res) :
    ∀ r ∈ res, r.tool_name.isNull = false ∧ r.success = true := by
  induction l generalizing acc with
  | nil =>
    simp only [execCalls, Sum.inr.injEq] at h
    subst h
    exact hacc
  | cons c rest ih =>
    cases hc : call_tool reg (callName c) (callArgs c) with
    | error e => simp [execCalls, hc] at h
    | ok v =>
      simp only [execCalls, hc] at h
      refine ih (acc ++ [⟨callName c, callArgs c, v, true, plan⟩])
        (fun d hd => hl d (List.mem_cons_of_mem c hd)) ?_ h
      intro r hr
      rcases List.mem_append.1 hr with hr1 | hr2
      · exact hacc r hr1
      · simp only [List.mem_singleton] at hr2
        subst hr2
        exact ⟨hl c (List.mem_cons_self c rest), rfl⟩

theorem runValidatedPhase_invariants (reg : Registry) (text : String)
    (plan : Option String) (calls : List JValue) :
    ((runValidatedPhase reg text plan calls).success = some false →
      (∃ e, (runValidatedPhase reg text plan calls).error = some e) ∧
      ∃ et, (runValidatedPhase reg text plan calls).error_type = some et) ∧
    ((runValidatedPhase reg text plan calls).tool_name.isNull = true →
      ∃ r, (runValidatedPhase reg text plan calls).reason = some r) ∧
    ((runValidatedPhase reg text plan calls).reason ≠ some JValue.null) := by
  cases hvc : validateCalls reg text plan calls calls with
  | some o =>
    have he : runValidatedPhase reg text plan calls = o := by
      unfold runValidatedPhase
      rw [hvc]
    rw [he]
    rcases validateCalls_some_inv reg text plan calls calls o hvc with
      ⟨hs, _, hr⟩ | ⟨hn, hs, herr, het, hr⟩
    · refine ⟨fun h => ?_, fun _ => ⟨_, hr⟩, ?_⟩
      · rw [hs] at h
        exact Option.noConfusion h
      · rw [hr]
        intro hx
        exact JValue.noConfusion (Option.some_inj.1 hx)
    · refine ⟨fun _ => ⟨herr, _, het⟩, fun hnull => ?_, ?_⟩
      · rw [hn] at hnull
        exact Bool.noConfusion hnull
      · rw [hr]
        simp
  | none =>
    have hnames := validateCalls_none_named reg text plan calls calls hvc
    cases hex : execCalls reg plan calls calls [] with
    | inl o =>
      have he : runValidatedPhase reg text plan calls = o := by
        unfold runValidatedPhase
        rw [hvc, hex]
      rw [he]
      obtain ⟨hn, hs, herr, het, hr⟩ :=
        execCalls_inl_inv reg plan calls calls [] hnames o hex
      refine ⟨fun _ => ⟨herr, _, het⟩, fun hnull => ?_, by rw [hr]; simp⟩
      rw [hn] at hnull
      exact Bool.noConfusion hnull
    | inr res =>
      have hres := execCalls_inr_inv reg plan calls calls [] hnames
        (by intro r hr; exact absurd hr (List.not_mem_nil r)) res hex
      match res, hex with
      | [r], hex =>
        have he : runValidatedPhase reg text plan calls = callResultToOutcome r := by
          unfold runValidatedPhase
          rw [hvc, hex]
        rw [he]
        obtain ⟨hn, hs⟩ := hres r (List.mem_cons_self r [])
        refine ⟨fun h => ?_, fun hnull => ?_, by simp [callResultToOutcome]⟩
        · simp only [callResultToOutcome, hs] at h
          exact Bool.noConfusion (Option.some_inj.1 h)
        · simp only [callResultToOutcome] at hnull
          rw [hn] at hnull
          exact Bool.noConfusion hnull
      | [], hex =>
        have he : runValidatedPhase reg text plan calls =
            batchOutcome calls [] plan := by
          unfold runValidatedPhase
          rw [hvc, hex]
        rw [he]
        refine ⟨fun h => ?_, fun hnull => ?_, by simp [batchOutcome]⟩
        · simp only [batchOutcome] at h
          exact Bool.noConfusion (Option.some_inj.1 h)
        · simp only [batchOutcome, JValue.isNull] at hnull
          exact Bool.noConfusion hnull
      | r1 :: r2 :: rs, hex =>
        have he : runValidatedPhase reg text plan calls =
            batchOutcome calls (r1 :: r2 :: rs) plan := by
          unfold runValidatedPhase
          rw [hvc, hex]
        rw [he]
        refine ⟨fun h => ?_, fun hnull => ?_, by simp [batchOutcome]⟩
        · simp only [batchOutcome] at h
          exact Bool.noConfusion (Option.some_inj.1 h)
        · simp only [batchOutcome, JValue.isNull] at hnull
          exact Bool.noConfusion hnull

theorem runParsedCalls_invariants (reg : Registry) (text : String)
    (plan : Option String) (calls : List JValue) :
    ((runParsedCalls reg text plan calls).success = some false →
      (∃ e, (runParsedCalls reg text plan calls).error = some e) ∧
      ∃ et, (runParsedCalls reg text plan calls).error_type = some et) ∧
    ((runParsedCalls reg text plan calls).tool_name.isNull = true →
      ∃ r, (runParsedCalls reg text plan calls).reason = some r) ∧
    ((runParsedCalls reg text plan calls).tool_name.isNull = true →
     (runParsedCalls reg text plan calls).reason = some JValue.null →
      ∃ c, calls = [c] ∧ c.lookup "reason" = some JValue.null) := by
  match calls with
  | [] =>
    refine ⟨fun h => ?_, fun _ => ⟨_, rfl⟩, fun _ hr => ?_⟩
    · exact Option.noConfusion h
    · exact absurd (Option.some_inj.1 hr) (fun hx => JValue.noConfusion hx)
  | [c] =>
    by_cases h1 : (callName c).isNull = true
    · have he : runParsedCalls reg text plan [c] = declineOutcome text plan [c] c := by
        simp [runParsedCalls, h1]
      rw [he]
      refine ⟨fun h => ?_, fun _ => ⟨_, rfl⟩, fun _ hr => ?_⟩
      · exact Option.noConfusion h
      · cases hl : c.lookup "reason" with
        | none =>
          exfalso
          simp only [declineOutcome, hl, Option.getD_none] at hr
          exact JValue.noConfusion (Option.some_inj.1 hr)
        | some v =>
          simp only [declineOutcome, hl, Option.getD_some] at hr
          have hv := Option.some_inj.1 hr
          subst hv
          exact ⟨c, rfl, hl⟩
    · have h1' : (callName c).isNull = false := by simpa using h1
      have he : runParsedCalls reg text plan [c] =
          runValidatedPhase reg text plan [c] := by
        simp only [runParsedCalls, h1', Bool.false_eq_true, if_false]
      rw [he]
      obtain ⟨ha, hb, hc⟩ := runValidatedPhase_invariants reg text plan [c]
      exact ⟨ha, hb, fun _ hr => absurd hr hc⟩
  | c1 :: c2 :: rest =>
    have he : runParsedCalls reg text plan (c1 :: c2 :: rest) =
        runValidatedPhase reg text plan (c1 :: c2 :: rest) := rfl
    rw [he]
    obtain ⟨ha, hb, hc⟩ := runValidatedPhase_invariants reg text plan (c1 :: c2 :: rest)
    exact ⟨ha, hb, fun _ hr => absurd hr hc⟩

/-- Claim C9, amended:  Every step outcome with `success = false` (the field
present and false) carries a non-null `error` and a non-null `error_type`; and
every outcome representing "no tool call" (`tool_name` null) carries a
`reason` key — whose value is, however, itself `null` exactly when the reply
was a single explicit-decline call whose `reason` field is explicitly `null`
(the `"未调用工具"` default only covers an absent key), in which case `plan`
may also be null.  The original claim's demand of a non-null reason-or-plan
fails only in that explicit-`null`-reason case (see the counterexample). -/
theorem step_outcome_invariants (reg : Registry) (text : String) :
    ((stepOutcome reg text).success = some false →
      (∃ e, (stepOutcome reg text).error = some e) ∧
      ∃ et, (stepOutcome reg text).error_type = some et) ∧
    ((stepOutcome reg text).tool_name.isNull = true →
      ∃ r, (stepOutcome reg text).reason = some r) ∧
    ((stepOutcome reg text).tool_name.isNull = true →
     (stepOutcome reg text).reason = some JValue.null →
      ∃ c, (extractPlanAndToolCalls text).2 = [c] ∧
        c.lookup "reason" = some JValue.null) := by
  have he : stepOutcome reg text =
      runParsedCalls reg text (extractPlanAndToolCalls text).1
        (extractPlanAndToolCalls text).2 := rfl
  rw [he]
  exact runParsedCalls_invariants reg text (extractPlanAndToolCalls text).1
    (extractPlanAndToolCalls text).2

/-- Counterexample to C9 as stated: for the reply
`\x7b"tool_name": null, "reason": null\x7d` the outcome represents "no tool
call" (`tool_name` is null) yet carries neither a non-null `reason` nor a
plan — the explicit-decline branch passes the call's `reason` value through,
and an explicit `null` is a present value, so the `"未调用工具"` default does
not apply. -/
theorem step_null_reason_counterexample :
    (stepOutcome (defaultRegistry trivialClient)
      "\x7b\"tool_name\": null, \"reason\": null\x7d").tool_name = JValue.null ∧
    (stepOutcome (defaultRegistry trivialClient)
      "\x7b\"tool_name\": null, \"reason\": null\x7d").reason =
      some JValue.null ∧
    (stepOutcome (defaultRegistry trivialClient)
      "\x7b\"tool_name\": null, \"reason\": null\x7d").plan = none :=
  ⟨rfl, rfl, rfl⟩

/-- Witness for the amended C9: a step whose single `arm` call fails
validation yields `success = some false` together with a present error and
error type. -/
theorem step_outcome_invariants_witness :
    (∃ e, (stepOutcome (defaultRegistry trivialClient)
      "\x7b\"tool_name\": \"arm\", \"arguments\": \x7b\x7d\x7d").error = some e) ∧
    ∃ et, (stepOutcome (defaultRegistry trivialClient)
      "\x7b\"tool_name\": \"arm\", \"arguments\": \x7b\x7d\x7d").error_type =
        some et :=
  (step_outcome_invariants (defaultRegistry trivialClient)
    "\x7b\"tool_name\": \"arm\", \"arguments\": \x7b\x7d\x7d").1 (by rfl)
